import Mathlib

/-!
Verification of `src/main.py` (minimum dominating set solver).

The program builds an undirected graph from CSV rows via `networkx.Graph.add_edge`
(`read_graph_from_csv`), then `find_minimum_dominating_set` poses the integer
linear program

    minimize   sum_{v in nodes} x_v
    subject to (sum_{j in neighbors(i)} x_j) + x_i >= 1   for every node i
               x_v binary

and returns `[v for v in G.nodes() if value(x_v) == 1]`.  The external MILP
solver (`pulp`'s default CBC backend, invoked by `prob.solve()`) is exact: on
this always-feasible bounded problem it returns an optimal binary assignment.
We embed that contract as a deterministic exhaustive minimizer over subsets of
the node list, which has exactly the same input/output semantics.
-/

namespace MDS

/-- One CSV row of the input: `Source`, `Target`, `Weight` (weight parsed as a
number; it is carried in the graph but never read by the solver). -/
structure Row where
  source : Nat
  target : Nat
  weight : Int
deriving DecidableEq, Repr

/-- Embedding of a `networkx.Graph`: node list in insertion order and the list
of undirected edges `(u, v, weight)`, each stored once. -/
structure Graph where
  nodes : List Nat
  edges : List (Nat × Nat × Int)
deriving DecidableEq, Repr

/-- Adding a node, as `networkx` does implicitly inside `add_edge`: a no-op if
the node is already present, otherwise appended. -/
def addNode (g : Graph) (u : Nat) : Graph :=
  if u ∈ g.nodes then g else { g with nodes := g.nodes ++ [u] }

/-- Does an edge entry record the undirected edge `{u, v}`? -/
def edgeMatches (u v : Nat) (e : Nat × Nat × Int) : Bool :=
  (e.1 == u && e.2.1 == v) || (e.1 == v && e.2.1 == u)

/-- Is the undirected edge `{u, v}` present? -/
def hasEdge (g : Graph) (u v : Nat) : Bool :=
  g.edges.any (edgeMatches u v)

/-- Edge insertion step: if the undirected edge `{u, v}` already exists its
weight is updated in place, otherwise the edge is appended. -/
def updateEdges (g1 : Graph) (u v : Nat) (w : Int) : Graph :=
  if hasEdge g1 u v then
    { g1 with edges := g1.edges.map (fun e => if edgeMatches u v e then (e.1, e.2.1, w) else e) }
  else
    { g1 with edges := g1.edges ++ [(u, v, w)] }

/-- Embedding of `networkx.Graph.add_edge(u, v, weight=w)`: both endpoints are
added as nodes if absent; if the undirected edge already exists its weight is
updated, otherwise the edge is appended.  `networkx` accepts `u == v` and
stores a self-loop; nothing is ever rejected. -/
def add_edge (g : Graph) (u v : Nat) (w : Int) : Graph :=
  updateEdges (addNode (addNode g u) v) u v w

/-- Embedding of `read_graph_from_csv`: starting from an empty
`networkx.Graph`, `G.add_edge(row.Source, row.Target, weight=row.Weight)` for
each row in order. -/
def read_graph_from_csv (rows : List Row) : Graph :=
  rows.foldl (fun g r => add_edge g r.source r.target r.weight) ⟨[], []⟩

/-- Embedding of `G.neighbors(v)`: the other endpoint of every stored edge
incident to `v`, in edge order (a self-loop at `v` lists `v` itself, as in
`networkx`). -/
def neighbors (g : Graph) (v : Nat) : List Nat :=
  g.edges.filterMap (fun e =>
    if e.1 = v then some e.2.1 else if e.2.1 = v then some e.1 else none)

/-- The weight-erased edge list (endpoints only). -/
def skeleton (g : Graph) : List (Nat × Nat) :=
  g.edges.map (fun e => (e.1, e.2.1))

/-- The ILP constraint `DominatingCondition_i` for node `i` under the 0/1
assignment whose support is `S`: `(sum_{j in neighbors(i)} x_j) + x_i >= 1`,
i.e. `i` is in `S` or some listed neighbor of `i` is. -/
def dominates (g : Graph) (S : List Nat) (i : Nat) : Bool :=
  S.contains i || (neighbors g i).any (fun j => S.contains j)

/-- A 0/1 assignment with support `S` is feasible for the ILP iff every node's
dominating condition holds. -/
def feasible (g : Graph) (S : List Nat) : Bool :=
  g.nodes.all (dominates g S)

/-- Select, from a list of candidate supports, one of minimum length (the
first minimum, scanning left to right, starting from `init`). -/
def pickMin (l : List (List Nat)) (init : List Nat) : List Nat :=
  l.foldl (fun best S => if S.length < best.length then S else best) init

/-- Contract of `prob.solve()` on the dominating-set ILP: an optimal binary
assignment, embedded as the exhaustive minimum over all subsets of the node
list (the all-ones assignment is always feasible, so the problem is never
infeasible). -/
def solveILP (g : Graph) : List Nat :=
  pickMin ((g.nodes.sublists).filter (feasible g)) g.nodes

/-- Embedding of `find_minimum_dominating_set`: build and solve the ILP, then
return `[v for v in G.nodes() if value(vertex_vars[v]) == 1]`. -/
def find_minimum_dominating_set (g : Graph) : List Nat :=
  let sol := solveILP g
  g.nodes.filter (fun v => sol.contains v)

lemma solver_sanity :
    find_minimum_dominating_set (read_graph_from_csv [⟨0, 1, 1⟩, ⟨1, 2, 1⟩]) = [1] := by
  decide

lemma neighbors_sanity :
    neighbors (read_graph_from_csv [⟨0, 1, 1⟩, ⟨1, 2, 1⟩]) 1 = [0, 2] := by
  decide

lemma contains_iff_mem (l : List Nat) (v : Nat) : l.contains v = true ↔ v ∈ l := by
  simp

lemma pickMin_mem (l : List (List Nat)) (init : List Nat) :
    pickMin l init = init ∨ pickMin l init ∈ l := by
  induction l generalizing init with
  | nil => exact Or.inl rfl
  | cons a l ih =>
    unfold pickMin at *
    simp only [List.foldl_cons]
    rcases ih (if a.length < init.length then a else init) with h | h
    · rw [h]
      split
      · exact Or.inr (List.mem_cons_self a l)
      · exact Or.inl rfl
    · exact Or.inr (List.mem_cons_of_mem a h)

lemma pickMin_le (l : List (List Nat)) (init : List Nat) :
    (pickMin l init).length ≤ init.length ∧
      ∀ S ∈ l, (pickMin l init).length ≤ S.length := by
  induction l generalizing init with
  | nil => exact ⟨Nat.le_refl _, by intro S hS; cases hS⟩
  | cons a l ih =>
    unfold pickMin at *
    simp only [List.foldl_cons]
    obtain ⟨h1, h2⟩ := ih (if a.length < init.length then a else init)
    constructor
    · refine Nat.le_trans h1 ?_
      split <;> omega
    · intro S hS
      rcases List.mem_cons.mp hS with rfl | hS
      · refine Nat.le_trans h1 ?_
        split <;> omega
      · exact h2 S hS

/-- The all-ones assignment (every node selected) satisfies every dominating
condition, so the ILP is always feasible. -/
lemma feasible_self (g : Graph) : feasible g g.nodes = true := by
  unfold feasible dominates
  rw [List.all_eq_true]
  intro i hi
  simp only [Bool.or_eq_true, List.any_eq_true]
  exact Or.inl ((contains_iff_mem _ _).mpr hi)

lemma solveILP_feasible (g : Graph) : feasible g (solveILP g) = true := by
  unfold solveILP
  rcases pickMin_mem ((g.nodes.sublists).filter (feasible g)) g.nodes with h | h
  · rw [h]; exact feasible_self g
  · exact (List.mem_filter.mp h).2

lemma solveILP_sublist (g : Graph) : List.Sublist (solveILP g) g.nodes := by
  unfold solveILP
  rcases pickMin_mem ((g.nodes.sublists).filter (feasible g)) g.nodes with h | h
  · rw [h]
  · exact List.mem_sublists.mp (List.mem_filter.mp h).1

lemma solveILP_min (g : Graph) (S : List Nat) (hS : List.Sublist S g.nodes)
    (hfeas : feasible g S = true) : (solveILP g).length ≤ S.length := by
  unfold solveILP
  exact (pickMin_le _ _).2 S (List.mem_filter.mpr ⟨List.mem_sublists.mpr hS, hfeas⟩)

lemma mem_result_iff (g : Graph) (v : Nat) :
    v ∈ find_minimum_dominating_set g ↔ v ∈ solveILP g := by
  unfold find_minimum_dominating_set
  simp only [List.mem_filter, contains_iff_mem]
  constructor
  · exact fun h => h.2
  · exact fun h => ⟨(solveILP_sublist g).subset h, h⟩

/-- The returned set satisfies every dominating condition: each node is
selected or has a selected neighbor. -/
lemma result_valid (g : Graph) (v : Nat) (hv : v ∈ g.nodes) :
    v ∈ find_minimum_dominating_set g ∨
      ∃ w ∈ neighbors g v, w ∈ find_minimum_dominating_set g := by
  have hfeas := solveILP_feasible g
  unfold feasible at hfeas
  have hd := List.all_eq_true.mp hfeas v hv
  unfold dominates at hd
  simp only [Bool.or_eq_true, List.any_eq_true, contains_iff_mem] at hd
  rcases hd with h | ⟨w, hw, hwS⟩
  · exact Or.inl ((mem_result_iff g v).mpr h)
  · exact Or.inr ⟨w, hw, (mem_result_iff g w).mpr hwS⟩

lemma filter_contains_of_sublist {s l : List Nat} (h : List.Sublist s l) :
    l.Nodup → l.filter (fun v => s.contains v) = s := by
  induction h with
  | slnil => intro _; rfl
  | @cons l1 l2 a h ih =>
    intro hn
    rw [List.nodup_cons] at hn
    have has : a ∉ l1 := fun hm => hn.1 (h.subset hm)
    rw [List.filter_cons, if_neg (by simp [has])]
    exact ih hn.2
  | @cons₂ l1 l2 a h ih =>
    intro hn
    rw [List.nodup_cons] at hn
    rw [List.filter_cons, if_pos (by simp)]
    have hcongr : ∀ v ∈ l2, ((a :: l1).contains v) = (l1.contains v) := by
      intro v hv
      have hva : v ≠ a := fun he => hn.1 (he ▸ hv)
      simp [List.contains_cons, hva]
    rw [List.filter_congr hcongr, ih hn.2]

lemma result_eq_sol (g : Graph) (hn : g.nodes.Nodup) :
    find_minimum_dominating_set g = solveILP g :=
  filter_contains_of_sublist (solveILP_sublist g) hn

lemma result_subset (g : Graph) : ∀ v ∈ find_minimum_dominating_set g, v ∈ g.nodes := by
  intro v hv
  exact (List.mem_filter.mp hv).1

lemma result_nodup (g : Graph) (hn : g.nodes.Nodup) :
    (find_minimum_dominating_set g).Nodup :=
  hn.filter _

lemma length_filter_mem_finset (l : List Nat) (hn : l.Nodup) (T : Finset Nat)
    (hT : ∀ v ∈ T, v ∈ l) :
    (l.filter (fun v => decide (v ∈ T))).length = T.card := by
  have h1 : (l.filter (fun v => decide (v ∈ T))).Nodup := hn.filter _
  rw [← List.toFinset_card_of_nodup h1]
  congr 1
  ext x
  simp only [List.mem_toFinset, List.mem_filter, decide_eq_true_eq]
  exact ⟨fun h => h.2, fun h => ⟨hT x h, h⟩⟩

/-- Minimality of the returned set against any dominating vertex subset. -/
lemma solver_min (g : Graph) (hn : g.nodes.Nodup) (T : Finset Nat)
    (hT : ∀ v ∈ T, v ∈ g.nodes)
    (hdom : ∀ v ∈ g.nodes, v ∈ T ∨ ∃ w ∈ neighbors g v, w ∈ T) :
    (find_minimum_dominating_set g).length ≤ T.card := by
  have hsub : List.Sublist (g.nodes.filter (fun v => decide (v ∈ T))) g.nodes :=
    List.filter_sublist _
  have hfeas : feasible g (g.nodes.filter (fun v => decide (v ∈ T))) = true := by
    unfold feasible dominates
    rw [List.all_eq_true]
    intro i hi
    simp only [Bool.or_eq_true, List.any_eq_true, contains_iff_mem, List.mem_filter,
      decide_eq_true_eq]
    rcases hdom i hi with h | ⟨w, hw, hwT⟩
    · exact Or.inl ⟨hi, h⟩
    · exact Or.inr ⟨w, hw, hT w hwT, hwT⟩
  calc (find_minimum_dominating_set g).length
      = (solveILP g).length := by rw [result_eq_sol g hn]
    _ ≤ (g.nodes.filter (fun v => decide (v ∈ T))).length := solveILP_min g _ hsub hfeas
    _ = T.card := length_filter_mem_finset g.nodes hn T hT

/-- Brute-force reference value: the minimum cardinality over all subsets of
the node list that satisfy every dominating condition. -/
def bruteForceMin (g : Graph) : Nat :=
  (((g.nodes.sublists).filter (feasible g)).map List.length).foldl Nat.min g.nodes.length

lemma pickMin_length (l : List (List Nat)) (init : List Nat) :
    (pickMin l init).length = (l.map List.length).foldl Nat.min init.length := by
  induction l generalizing init with
  | nil => rfl
  | cons a l ih =>
    unfold pickMin at *
    simp only [List.foldl_cons, List.map_cons]
    rw [ih]
    congr 1
    simp only [Nat.min_def]
    split <;> split <;> omega

lemma result_length_eq_brute (g : Graph) (hn : g.nodes.Nodup) :
    (find_minimum_dominating_set g).length = bruteForceMin g := by
  rw [result_eq_sol g hn]
  unfold solveILP bruteForceMin
  exact pickMin_length _ _

/-- The path graph on `n` vertices `0 - 1 - ... - (n-1)` (unit weights), as the
program would build it. -/
def pathGraph (n : Nat) : Graph :=
  ⟨List.range n, (List.range (n - 1)).map (fun i => (i, i + 1, (1 : Int)))⟩

lemma nodes_pathGraph (n v : Nat) : v ∈ (pathGraph n).nodes ↔ v < n := by
  simp [pathGraph]

lemma mem_neighbors_pathGraph {n v w : Nat} :
    w ∈ neighbors (pathGraph n) v ↔ (w = v + 1 ∧ v + 1 < n) ∨ (w + 1 = v ∧ v < n) := by
  unfold neighbors pathGraph
  simp only [List.mem_filterMap, List.mem_map, List.mem_range]
  constructor
  · rintro ⟨e, ⟨i, hi, rfl⟩, he⟩
    simp only at he
    by_cases h1 : i = v
    · rw [if_pos h1] at he
      rw [Option.some_inj] at he
      omega
    · rw [if_neg h1] at he
      by_cases h2 : i + 1 = v
      · rw [if_pos h2] at he
        rw [Option.some_inj] at he
        omega
      · rw [if_neg h2] at he
        cases he
  · rintro (⟨rfl, hlt⟩ | ⟨hw, hlt⟩)
    · refine ⟨(v, v + 1, 1), ⟨v, by omega, rfl⟩, ?_⟩
      simp
    · refine ⟨(w, w + 1, 1), ⟨w, by omega, rfl⟩, ?_⟩
      simp only
      rw [if_neg (by omega), if_pos hw]

/-- Any set meeting every dominating condition of the path on `n` vertices has
at least `n / 3` (rounded up) members: each selected vertex covers at most
three path vertices. -/
lemma path_card_lower (n : Nat) (T : Finset Nat)
    (hdom : ∀ v ∈ (pathGraph n).nodes, v ∈ T ∨ ∃ w ∈ neighbors (pathGraph n) v, w ∈ T) :
    n ≤ 3 * T.card := by
  have hsub : Finset.range n ⊆ T.biUnion (fun s => ({s - 1, s, s + 1} : Finset Nat)) := by
    intro v hv
    rw [Finset.mem_range] at hv
    rcases hdom v ((nodes_pathGraph n v).mpr hv) with h | ⟨w, hw, hwT⟩
    · exact Finset.mem_biUnion.mpr ⟨v, h, by simp⟩
    · rw [mem_neighbors_pathGraph] at hw
      refine Finset.mem_biUnion.mpr ⟨w, hwT, ?_⟩
      simp only [Finset.mem_insert, Finset.mem_singleton]
      omega
  have h1 := Finset.card_le_card hsub
  rw [Finset.card_range] at h1
  have hone : ∀ s : Nat, ({s - 1, s, s + 1} : Finset Nat).card ≤ 3 := by
    intro s
    refine le_trans (Finset.card_insert_le _ _) (Nat.succ_le_succ ?_)
    exact le_trans (Finset.card_insert_le _ _) (by simp)
  have h2 : (T.biUnion (fun s => ({s - 1, s, s + 1} : Finset Nat))).card ≤ 3 * T.card := by
    calc (T.biUnion (fun s => ({s - 1, s, s + 1} : Finset Nat))).card
        ≤ ∑ s ∈ T, ({s - 1, s, s + 1} : Finset Nat).card := Finset.card_biUnion_le
      _ ≤ ∑ s ∈ T, 3 := Finset.sum_le_sum (fun s _ => hone s)
      _ = 3 * T.card := by rw [Finset.sum_const, smul_eq_mul, Nat.mul_comm]
  omega

/-- An explicit dominating pattern for the path: from each block of three
consecutive vertices pick the middle one (or the block's first vertex when
the middle does not exist). -/
def pathCover (n : Nat) : Finset Nat :=
  (Finset.range ((n + 2) / 3)).image (fun k => if 3 * k + 1 < n then 3 * k + 1 else 3 * k)

lemma pathCover_card (n : Nat) : (pathCover n).card ≤ (n + 2) / 3 :=
  le_trans Finset.card_image_le (by rw [Finset.card_range])

lemma pathCover_subset (n : Nat) : ∀ v ∈ pathCover n, v ∈ (pathGraph n).nodes := by
  intro v hv
  simp only [pathCover, Finset.mem_image, Finset.mem_range] at hv
  obtain ⟨k, hk, rfl⟩ := hv
  rw [nodes_pathGraph]
  split <;> omega

lemma pathCover_dominates (n : Nat) :
    ∀ v ∈ (pathGraph n).nodes, v ∈ pathCover n ∨
      ∃ w ∈ neighbors (pathGraph n) v, w ∈ pathCover n := by
  intro v hv
  rw [nodes_pathGraph] at hv
  have hk : v / 3 < (n + 2) / 3 := by omega
  by_cases h1 : v % 3 = 1
  · refine Or.inl (Finset.mem_image.mpr ⟨v / 3, Finset.mem_range.mpr hk, ?_⟩)
    rw [if_pos (by omega)]
    omega
  · by_cases h0 : v % 3 = 0
    · by_cases h2 : v + 1 < n
      · refine Or.inr ⟨v + 1, mem_neighbors_pathGraph.mpr (Or.inl ⟨rfl, h2⟩),
          Finset.mem_image.mpr ⟨v / 3, Finset.mem_range.mpr hk, ?_⟩⟩
        rw [if_pos (by omega)]
        omega
      · refine Or.inl (Finset.mem_image.mpr ⟨v / 3, Finset.mem_range.mpr hk, ?_⟩)
        rw [if_neg (by omega)]
        omega
    · refine Or.inr ⟨v - 1, mem_neighbors_pathGraph.mpr (Or.inr ⟨by omega, hv⟩),
        Finset.mem_image.mpr ⟨v / 3, Finset.mem_range.mpr hk, ?_⟩⟩
      rw [if_pos (by omega)]
      omega

lemma pathGraph_nodes_nodup (n : Nat) : (pathGraph n).nodes.Nodup :=
  List.nodup_range n

/-- On the path with `n` vertices the solver returns a set of exactly
`⌈n/3⌉ = (n+2)/3` vertices. -/
lemma path_result_length (n : Nat) :
    (find_minimum_dominating_set (pathGraph n)).length = (n + 2) / 3 := by
  apply Nat.le_antisymm
  · exact le_trans (solver_min _ (pathGraph_nodes_nodup n) (pathCover n)
      (pathCover_subset n) (pathCover_dominates n)) (pathCover_card n)
  · have hcard : (find_minimum_dominating_set (pathGraph n)).toFinset.card
        = (find_minimum_dominating_set (pathGraph n)).length :=
      List.toFinset_card_of_nodup (result_nodup _ (pathGraph_nodes_nodup n))
    have hdom : ∀ v ∈ (pathGraph n).nodes,
        v ∈ (find_minimum_dominating_set (pathGraph n)).toFinset ∨
          ∃ w ∈ neighbors (pathGraph n) v,
            w ∈ (find_minimum_dominating_set (pathGraph n)).toFinset := by
      intro v hv
      rcases result_valid (pathGraph n) v hv with h | ⟨w, hw1, hw2⟩
      · exact Or.inl (List.mem_toFinset.mpr h)
      · exact Or.inr ⟨w, hw1, List.mem_toFinset.mpr hw2⟩
    have := path_card_lower n _ hdom
    omega

lemma edgeMatches_proj (a b : Nat) (e : Nat × Nat × Int) (w : Int) :
    edgeMatches a b (e.1, e.2.1, w) = edgeMatches a b e := rfl

lemma addNode_of_mem {g : Graph} {u : Nat} (h : u ∈ g.nodes) : addNode g u = g := by
  unfold addNode
  rw [if_pos h]

lemma mem_addNode_self (g : Graph) (u : Nat) : u ∈ (addNode g u).nodes := by
  unfold addNode
  split
  · assumption
  · simp

lemma mem_addNode_of_mem {g : Graph} {a : Nat} (u : Nat) (h : a ∈ g.nodes) :
    a ∈ (addNode g u).nodes := by
  unfold addNode
  split
  · exact h
  · simp [h]

lemma updateEdges_nodes (g1 : Graph) (u v : Nat) (w : Int) :
    (updateEdges g1 u v w).nodes = g1.nodes := by
  unfold updateEdges
  split <;> rfl

lemma add_edge_nodes (g : Graph) (u v : Nat) (w : Int) :
    (add_edge g u v w).nodes = (addNode (addNode g u) v).nodes := by
  unfold add_edge
  rw [updateEdges_nodes]

lemma mem_add_edge_left (g : Graph) (u v : Nat) (w : Int) : u ∈ (add_edge g u v w).nodes := by
  rw [add_edge_nodes]
  exact mem_addNode_of_mem v (mem_addNode_self g u)

lemma mem_add_edge_right (g : Graph) (u v : Nat) (w : Int) : v ∈ (add_edge g u v w).nodes := by
  rw [add_edge_nodes]
  exact mem_addNode_self _ v

lemma hasEdge_updateEdges_self (g1 : Graph) (u v : Nat) (w : Int) :
    hasEdge (updateEdges g1 u v w) u v = true := by
  unfold updateEdges hasEdge
  split
  · rename_i h
    rw [List.any_eq_true] at h ⊢
    obtain ⟨e, he, hm⟩ := h
    refine ⟨(e.1, e.2.1, w), List.mem_map.mpr ⟨e, he, by rw [if_pos hm]⟩, ?_⟩
    rw [edgeMatches_proj]
    exact hm
  · rw [List.any_eq_true]
    refine ⟨(u, v, w), by simp, ?_⟩
    simp [edgeMatches]

lemma hasEdge_add_edge_self (g : Graph) (u v : Nat) (w : Int) :
    hasEdge (add_edge g u v w) u v = true := by
  unfold add_edge
  exact hasEdge_updateEdges_self _ u v w

lemma hasEdge_add_edge_mono {g : Graph} {a b : Nat} (u v : Nat) (w : Int)
    (h : hasEdge g a b = true) : hasEdge (add_edge g u v w) a b = true := by
  unfold hasEdge at h
  rw [List.any_eq_true] at h
  obtain ⟨e, he, hm⟩ := h
  have he2 : e ∈ (addNode (addNode g u) v).edges := by
    unfold addNode
    split <;> split <;> exact he
  unfold add_edge updateEdges hasEdge
  split
  · rw [List.any_eq_true]
    by_cases huv : edgeMatches u v e = true
    · refine ⟨(e.1, e.2.1, w), List.mem_map.mpr ⟨e, he2, by rw [if_pos huv]⟩, ?_⟩
      rw [edgeMatches_proj]
      exact hm
    · refine ⟨e, List.mem_map.mpr ⟨e, he2, ?_⟩, hm⟩
      rw [if_neg huv]
  · rw [List.any_eq_true]
    exact ⟨e, List.mem_append_left _ he2, hm⟩

lemma hasEdge_foldl_mono (rows : List Row) :
    ∀ (g : Graph) (a b : Nat), hasEdge g a b = true →
      hasEdge (rows.foldl (fun g r => add_edge g r.source r.target r.weight) g) a b = true := by
  induction rows with
  | nil => intro g a b h; exact h
  | cons r rows ih =>
    intro g a b h
    exact ih _ a b (hasEdge_add_edge_mono _ _ _ h)

/-- Re-adding an existing undirected edge keeps the node list and the
weight-erased edge list unchanged (only the stored weight may change). -/
lemma add_edge_idem (g : Graph) (u v : Nat) (w1 w2 : Int) :
    (add_edge (add_edge g u v w1) u v w2).nodes = (add_edge g u v w1).nodes ∧
      skeleton (add_edge (add_edge g u v w1) u v w2) = skeleton (add_edge g u v w1) := by
  have hfix : addNode (addNode (add_edge g u v w1) u) v = add_edge g u v w1 := by
    rw [addNode_of_mem (mem_add_edge_left g u v w1),
      addNode_of_mem (mem_add_edge_right g u v w1)]
  have hE : hasEdge (add_edge g u v w1) u v = true := hasEdge_add_edge_self g u v w1
  constructor
  · show (add_edge (add_edge g u v w1) u v w2).nodes = _
    rw [add_edge_nodes, hfix]
  · show skeleton (updateEdges (addNode (addNode (add_edge g u v w1) u) v) u v w2) = _
    rw [hfix]
    unfold updateEdges
    rw [if_pos hE]
    unfold skeleton
    simp only [List.map_map]
    refine List.map_congr_left ?_
    intro e _
    simp only [Function.comp_apply]
    split <;> rfl

/-- Closed neighborhood `N+(v) = {v} ∪ neighbors(v)` (spec §4.1). -/
def closedNeighborhood (g : Graph) (v : Nat) : List Nat :=
  v :: neighbors g v

/-- Modelled from the spec: how many currently-undominated vertices the closed
neighborhood of `v` covers (value maximised by the §4.2 greedy rule).  This
component is absent from `src/` (the source delegates to an ILP library). -/
def coverCount (g : Graph) (dominated : List Nat) (v : Nat) : Nat :=
  ((closedNeighborhood g v).filter (fun u => !(dominated.contains u))).length

/-- Modelled from the spec: the §4.2 greedy selection — the vertex whose closed
neighborhood covers the most currently-undominated vertices, ties broken by
the stable vertex order (first such vertex in node order). -/
def pickBest (g : Graph) (dominated : List Nat) : Option Nat :=
  g.nodes.foldl (fun best v =>
    match best with
    | none => some v
    | some b => if coverCount g dominated b < coverCount g dominated v then some v else best)
    none

/-- Modelled from the spec: the §4.2 greedy set-cover loop over closed
neighborhoods, with explicit fuel (one node is selected per round, so
`|nodes|` rounds always suffice); stops when every vertex is dominated. -/
def greedyLoop (g : Graph) : Nat → List Nat → List Nat → List Nat
  | 0, S, _ => S
  | fuel + 1, S, dominated =>
    if g.nodes.all (fun v => dominated.contains v) then S
    else
      match pickBest g dominated with
      | none => S
      | some b => greedyLoop g fuel (S ++ [b]) (dominated ++ closedNeighborhood g b)

/-- Modelled from the spec: the Bounding Engine's greedy feasible solution
(§4.2), used to seed the Incumbent. -/
def greedy (g : Graph) : List Nat :=
  greedyLoop g g.nodes.length [] []

/-- The result record of the spec's §6 interface: vertex set, its size, and
the exactness flag (`false` only on early stop). -/
structure SolveResult where
  vertices : List Nat
  size : Nat
  optimal : Bool
deriving DecidableEq, Repr

/-- Modelled from the spec: the budgeted entry point
`solveMinimumDominatingSet(graph, budget)` of §6, absent from `src/` (the
source's `find_minimum_dominating_set` takes no budget and returns a bare
list).  With `maxNodes = 0` the search expands no node, so the returned set is
the Incumbent seeded by the §4.2 greedy bound, flagged non-optimal; with no
budget the search runs to completion and returns the exact answer flagged
optimal (the exact answer is embedded by the `src/` solver). -/
def solveMinimumDominatingSet (g : Graph) (maxNodes : Option Nat) : SolveResult :=
  match maxNodes with
  | some 0 => ⟨greedy g, (greedy g).length, false⟩
  | _ => ⟨find_minimum_dominating_set g, (find_minimum_dominating_set g).length, true⟩

/-- A `G.nodes()` call: returns the node list and leaves the graph as is. -/
def nodesQuery (g : Graph) : List Nat × Graph :=
  (g.nodes, g)

/-- A `G.neighbors(i)` call: returns the adjacency of `i` and leaves the graph
as is. -/
def neighborsQuery (g : Graph) (v : Nat) : List Nat × Graph :=
  (neighbors g v, g)

/-- State-passing embedding of the body of `find_minimum_dominating_set`: the
graph state is threaded through every `networkx` call the Python body makes —
`G.nodes()` for the variable dictionary, the objective and the constraint
loop, `G.neighbors(i)` inside each constraint, and `G.nodes()` again in the
final comprehension — and the final graph state is returned alongside the
answer. -/
def find_minimum_dominating_set_run (g0 : Graph) : List Nat × Graph :=
  let p1 := nodesQuery g0
  let p2 := nodesQuery p1.2
  let p3 := nodesQuery p2.2
  let g3 := p3.1.foldl (fun gc i => (neighborsQuery gc i).2) p3.2
  let p4 := nodesQuery g3
  (p4.1.filter (fun v => (solveILP g0).contains v), p4.2)

lemma neighborsQuery_state (g : Graph) (v : Nat) : (neighborsQuery g v).2 = g := rfl

lemma foldl_neighborsQuery (l : List Nat) (g : Graph) :
    l.foldl (fun gc i => (neighborsQuery gc i).2) g = g := by
  induction l generalizing g with
  | nil => rfl
  | cons a l ih => rw [List.foldl_cons, neighborsQuery_state, ih]

lemma run_spec (g : Graph) :
    find_minimum_dominating_set_run g = (find_minimum_dominating_set g, g) := by
  unfold find_minimum_dominating_set_run nodesQuery
  simp only [foldl_neighborsQuery]
  rfl

lemma neighbors_eq_of_skeleton {g1 g2 : Graph} (h : skeleton g1 = skeleton g2) (v : Nat) :
    neighbors g1 v = neighbors g2 v := by
  have key : ∀ g : Graph, neighbors g v = (skeleton g).filterMap
      (fun p => if p.1 = v then some p.2 else if p.2 = v then some p.1 else none) := by
    intro g
    unfold neighbors skeleton
    rw [List.filterMap_map]
    rfl
  rw [key g1, key g2, h]

/-- Claim C1: the returned set satisfies every dominating condition, no
dominating vertex subset is strictly smaller, and its size equals the
brute-force minimum over all subsets of the node list (hence in particular
for every graph with at most 12 vertices). -/
theorem claim_C1 (g : Graph) (hn : g.nodes.Nodup) :
    feasible g (find_minimum_dominating_set g) = true ∧
    (∀ T : Finset Nat, (∀ v ∈ T, v ∈ g.nodes) →
      (∀ v ∈ g.nodes, v ∈ T ∨ ∃ w ∈ neighbors g v, w ∈ T) →
      (find_minimum_dominating_set g).length ≤ T.card) ∧
    (find_minimum_dominating_set g).length = bruteForceMin g := by
  refine ⟨?_, fun T hT hdom => solver_min g hn T hT hdom, result_length_eq_brute g hn⟩
  rw [result_eq_sol g hn]
  exact solveILP_feasible g

/-- Witness for C1, on the path `0 - 1 - 2`. -/
theorem claim_C1_witness :
    feasible (read_graph_from_csv [⟨0, 1, 1⟩, ⟨1, 2, 1⟩])
      (find_minimum_dominating_set (read_graph_from_csv [⟨0, 1, 1⟩, ⟨1, 2, 1⟩])) = true ∧
    (∀ T : Finset Nat, (∀ v ∈ T, v ∈ (read_graph_from_csv [⟨0, 1, 1⟩, ⟨1, 2, 1⟩]).nodes) →
      (∀ v ∈ (read_graph_from_csv [⟨0, 1, 1⟩, ⟨1, 2, 1⟩]).nodes,
        v ∈ T ∨ ∃ w ∈ neighbors (read_graph_from_csv [⟨0, 1, 1⟩, ⟨1, 2, 1⟩]) v, w ∈ T) →
      (find_minimum_dominating_set (read_graph_from_csv [⟨0, 1, 1⟩, ⟨1, 2, 1⟩])).length ≤ T.card) ∧
    (find_minimum_dominating_set (read_graph_from_csv [⟨0, 1, 1⟩, ⟨1, 2, 1⟩])).length
      = bruteForceMin (read_graph_from_csv [⟨0, 1, 1⟩, ⟨1, 2, 1⟩]) :=
  claim_C1 (read_graph_from_csv [⟨0, 1, 1⟩, ⟨1, 2, 1⟩]) (by decide)

/-- Claim C2: every returned set is a valid dominating set — each vertex is in
the set or has a neighbor in it. -/
theorem claim_C2 (g : Graph) (v : Nat) (hv : v ∈ g.nodes) :
    v ∈ find_minimum_dominating_set g ∨
      ∃ w ∈ neighbors g v, w ∈ find_minimum_dominating_set g :=
  result_valid g v hv

/-- Witness for C2: vertex 4 of the single-edge graph 3 - 4. -/
theorem claim_C2_witness :
    4 ∈ find_minimum_dominating_set (read_graph_from_csv [⟨3, 4, 2⟩]) ∨
      ∃ w ∈ neighbors (read_graph_from_csv [⟨3, 4, 2⟩]) 4,
        w ∈ find_minimum_dominating_set (read_graph_from_csv [⟨3, 4, 2⟩]) :=
  claim_C2 (read_graph_from_csv [⟨3, 4, 2⟩]) 4 (by decide)

/-- Claim C3: edge weights do not influence the result — two graphs with the
same node list and the same weight-erased edge list yield the same
dominating set. -/
theorem claim_C3 (g1 g2 : Graph) (hn : g1.nodes = g2.nodes)
    (hs : skeleton g1 = skeleton g2) :
    find_minimum_dominating_set g1 = find_minimum_dominating_set g2 := by
  have hne : ∀ v, neighbors g1 v = neighbors g2 v := neighbors_eq_of_skeleton hs
  have hf : feasible g1 = feasible g2 := by
    funext S
    unfold feasible dominates
    rw [hn]
    congr 1
    funext i
    rw [hne i]
  unfold find_minimum_dominating_set solveILP
  rw [hn, hf]

/-- Witness for C3: the same single edge with weights 3 and 7. -/
theorem claim_C3_witness :
    find_minimum_dominating_set (read_graph_from_csv [⟨0, 1, 3⟩])
      = find_minimum_dominating_set (read_graph_from_csv [⟨0, 1, 7⟩]) :=
  claim_C3 (read_graph_from_csv [⟨0, 1, 3⟩]) (read_graph_from_csv [⟨0, 1, 7⟩])
    (by decide) (by decide)

/-- Counterexample to C4 as stated: feeding the self-loop row `(0, 0, 1)` to
graph construction does not fail — the graph is built with node 0 and the
self-loop edge stored, exactly as `networkx.Graph.add_edge` behaves. -/
theorem claim_C4_counterexample :
    (read_graph_from_csv [⟨0, 0, 1⟩]).nodes = [0] ∧
    (read_graph_from_csv [⟨0, 0, 1⟩]).edges = [(0, 0, 1)] ∧
    hasEdge (read_graph_from_csv [⟨0, 0, 1⟩]) 0 0 = true := by
  decide

/-- Claim C4 (amended): a self-loop row is accepted — after construction the
self-loop edge is present in the graph (no error is ever raised); and adding
an edge twice is idempotent: the node list and the weight-erased edge list
are unchanged by the second insertion (only the stored weight is updated). -/
theorem claim_C4 (rows1 rows2 : List Row) (u : Nat) (w : Int)
    (g : Graph) (a b : Nat) (w1 w2 : Int) :
    hasEdge (read_graph_from_csv (rows1 ++ ⟨u, u, w⟩ :: rows2)) u u = true ∧
    (add_edge (add_edge g a b w1) a b w2).nodes = (add_edge g a b w1).nodes ∧
    skeleton (add_edge (add_edge g a b w1) a b w2) = skeleton (add_edge g a b w1) := by
  refine ⟨?_, (add_edge_idem g a b w1 w2).1, (add_edge_idem g a b w1 w2).2⟩
  unfold read_graph_from_csv
  rw [List.foldl_append, List.foldl_cons]
  exact hasEdge_foldl_mono rows2 _ u u (hasEdge_add_edge_self _ u u w)

/-- Claim C5: on a graph with zero vertices the solver returns (totally, no
exception path) the empty set of size 0 flagged optimal. -/
theorem claim_C5 (g : Graph) (h : g.nodes = []) :
    solveMinimumDominatingSet g none = ⟨[], 0, true⟩ := by
  have h2 : find_minimum_dominating_set g = [] := by
    unfold find_minimum_dominating_set
    rw [h]
    rfl
  unfold solveMinimumDominatingSet
  rw [h2]
  rfl

/-- Witness for C5: the graph built from an empty edge list. -/
theorem claim_C5_witness :
    solveMinimumDominatingSet (read_graph_from_csv []) none = ⟨[], 0, true⟩ :=
  claim_C5 (read_graph_from_csv []) rfl

/-- Claim C6: a vertex with no neighbors is always in the returned set. -/
theorem claim_C6 (g : Graph) (v : Nat) (hv : v ∈ g.nodes) (hiso : neighbors g v = []) :
    v ∈ find_minimum_dominating_set g := by
  rcases result_valid g v hv with h | ⟨w, hw, _⟩
  · exact h
  · rw [hiso] at hw
    cases hw

/-- Witness for C6: isolated vertex 0 next to the edge 1 - 2. -/
theorem claim_C6_witness : 0 ∈ find_minimum_dominating_set ⟨[0, 1, 2], [(1, 2, 1)]⟩ :=
  claim_C6 ⟨[0, 1, 2], [(1, 2, 1)]⟩ 0 (by decide) (by decide)

/-- Claim C7: on the path with `n ≥ 1` vertices the returned set has exactly
`⌈n/3⌉ = (n+2)/3` vertices. -/
theorem claim_C7 (n : Nat) (_hn : 1 ≤ n) :
    (find_minimum_dominating_set (pathGraph n)).length = (n + 2) / 3 :=
  path_result_length n

/-- Witness for C7: the path on five vertices yields size 2. -/
theorem claim_C7_witness :
    (find_minimum_dominating_set (pathGraph 5)).length = (5 + 2) / 3 :=
  claim_C7 5 (by decide)

/-- Claim C8: with node budget 0 the entry point returns (totally) the greedy
upper bound flagged non-optimal, and with no budget it is flagged optimal, so
the two outcomes are distinguishable in the result record. -/
theorem claim_C8 (g : Graph) :
    (solveMinimumDominatingSet g (some 0)).optimal = false ∧
    (solveMinimumDominatingSet g (some 0)).size = (greedy g).length ∧
    (solveMinimumDominatingSet g none).optimal = true :=
  ⟨rfl, rfl, rfl⟩

/-- Claim C9: the solver leaves the graph unchanged — the state-passing
embedding of the body returns the input graph as the final graph state, and
its answer agrees with the pure solver. -/
theorem claim_C9 (g : Graph) :
    (find_minimum_dominating_set_run g).2 = g ∧
    (find_minimum_dominating_set_run g).1 = find_minimum_dominating_set g := by
  rw [run_spec g]
  exact ⟨rfl, rfl⟩

/-- Claim C10: on a nonempty graph the returned list is nonempty, all its
members are vertices of the graph, and no member repeats. -/
theorem claim_C10 (g : Graph) (hn : g.nodes.Nodup) (hne : g.nodes ≠ []) :
    1 ≤ (find_minimum_dominating_set g).length ∧
    (∀ v ∈ find_minimum_dominating_set g, v ∈ g.nodes) ∧
    (find_minimum_dominating_set g).Nodup := by
  refine ⟨?_, result_subset g, result_nodup g hn⟩
  obtain ⟨v, l, hvl⟩ : ∃ v l, g.nodes = v :: l := by
    cases h : g.nodes with
    | nil => exact absurd h hne
    | cons a l => exact ⟨a, l, rfl⟩
  have hv : v ∈ g.nodes := by rw [hvl]; exact List.mem_cons_self v l
  rcases result_valid g v hv with h | ⟨w, _, hw⟩
  · exact List.length_pos.mpr (List.ne_nil_of_mem h)
  · exact List.length_pos.mpr (List.ne_nil_of_mem hw)

/-- Witness for C10: the single-edge graph 5 - 6. -/
theorem claim_C10_witness :
    1 ≤ (find_minimum_dominating_set (read_graph_from_csv [⟨5, 6, 1⟩])).length ∧
    (∀ v ∈ find_minimum_dominating_set (read_graph_from_csv [⟨5, 6, 1⟩]),
      v ∈ (read_graph_from_csv [⟨5, 6, 1⟩]).nodes) ∧
    (find_minimum_dominating_set (read_graph_from_csv [⟨5, 6, 1⟩])).Nodup :=
  claim_C10 (read_graph_from_csv [⟨5, 6, 1⟩]) (by decide) (by decide)

end MDS
